import Mathlib

/-!
Shallow embedding of `access_control.py`, the single source file of the
`conda-forge-admin-requests` access-control pipeline.

Modelling conventions:
- File contents are `String`s; a request directory is a `List (String × String)`
  of (filename, content) pairs in directory order.
- The YAML manifest's `access_control` mapping is an association list
  `AccessControl = List (String × List AccessEntry)` with Python-dict
  semantics (insertion order preserved, assignment replaces in place,
  new keys appended at the end).
- `update_access_yaml` returns `Except String AccessControl`: the `ok`
  payload is the document persisted on disk after the call (the early
  `return` paths of the Python code skip `yaml.dump`, so they yield the
  original document), and `error` means the exception path where no
  write occurs.
- Subprocess exit statuses and HTTP status codes are oracles passed in as
  functions; the shell commands issued are collected in a `Cmd` trace.
-/

set_option autoImplicit false

namespace AccessControlScript

/-- Default value of the `GH_ORG` environment variable. -/
def GH_ORG : String := "conda-forge"

/-- Python `str.strip(chars)` on a character list: drop the leading and the
trailing characters that belong to the set `cs` (both ends, any order). -/
def stripChars (cs : List Char) (l : List Char) : List Char :=
  ((l.dropWhile (fun c => c ∈ cs)).reverse.dropWhile (fun c => c ∈ cs)).reverse

/-- Python `str.strip(chars)` on strings; `cs` is the set of characters to
strip from both ends (NOT a suffix/prefix to remove). -/
def pyStrip (cs : String) (s : String) : String :=
  String.mk (stripChars cs.toList s.toList)

/-- Python `str.strip()` with no argument: remove the leading and the
trailing whitespace characters. -/
def pyStripWs (s : String) : String :=
  String.mk
    (((s.toList.dropWhile Char.isWhitespace).reverse.dropWhile Char.isWhitespace).reverse)

/-- Python `f.readlines()` with the line terminators already removed.  A final
newline terminates the last line without starting a new one (`"a\n"` gives one
line, `"a\n\n"` gives two: `"a"` and `""`); the empty file has no lines.
Dropping the terminators is harmless here because every caller immediately
strips each line. -/
def pyLines : List Char → List (List Char)
  | [] => []
  | c :: rest =>
    if c = '\n' then [] :: pyLines rest
    else
      match pyLines rest with
      | [] => [[c]]
      | l :: ls => (c :: l) :: ls

/-- `parse_an_input_file` (access_control.py lines 57-62): the request name is
`file_path.parts[-1].strip(".txt")` — a character-set strip, not a suffix
removal — and the feedstock list is the file's lines, each `str.strip()`ed. -/
def parse_an_input_file (fileName content : String) : String × List String :=
  (pyStrip ".txt" fileName,
   (pyLines content.toList).map (fun l => pyStripWs (String.mk l)))

/-- One entry of a resource's list in `.access_control.yml`: `{feedstock: <name>}`. -/
structure AccessEntry where
  feedstock : String
deriving DecidableEq

/-- The `access_control` mapping of the manifest, as a Python dict:
an insertion-ordered association list from resource name to entry list. -/
abbrev AccessControl := List (String × List AccessEntry)

/-- First-match lookup in an association list (Python `d[k]` / `k in d`). -/
def assocFind {α : Type} : List (String × α) → String → Option α
  | [], _ => none
  | (k, v) :: rest, key => if k = key then some v else assocFind rest key

/-- Python dict assignment `d[k] = v`: replace in place if the key exists,
otherwise append the new pair at the end. -/
def assocSet {α : Type} : List (String × α) → String → α → List (String × α)
  | [], key, v => [(key, v)]
  | (k, w) :: rest, key, v =>
    if k = key then (key, v) :: rest else (k, w) :: assocSet rest key v

/-- The list stored under resource `r`, or `[]` when the key is absent. -/
def acGetD (doc : AccessControl) (r : String) : List AccessEntry :=
  (assocFind doc r).getD []

/-- `update_access_yaml` (access_control.py lines 183-228), as a function from
the loaded `access_control` mapping to the mapping persisted on disk.
The Python code first creates the resource key in memory when absent, then:
`add` early-returns (no `yaml.dump`) when the feedstock is already present,
otherwise appends `{feedstock: name}` and dumps; `remove` early-returns when
the list is empty, otherwise filters out matching entries and dumps; any other
action raises `ValueError` before any dump.  Paths without a dump leave the
file holding the original document `doc`. -/
def update_access_yaml (doc : AccessControl) (resource feedstock_name action : String) :
    Except String AccessControl :=
  let content : AccessControl :=
    if (assocFind doc resource).isSome then doc else assocSet doc resource []
  if action = "add" then
    if (acGetD content resource).any (fun e => e.feedstock == feedstock_name) then
      Except.ok doc
    else
      Except.ok (assocSet content resource
        (acGetD content resource ++ [{ feedstock := feedstock_name }]))
  else if action = "remove" then
    if (acGetD content resource).isEmpty then
      Except.ok doc
    else
      Except.ok (assocSet content resource
        ((acGetD content resource).filter (fun e => e.feedstock != feedstock_name)))
  else
    Except.error ("Invalid action " ++ action ++ ". Choose add or remove.")

/-- The compiled-in registry `CIRUN_FILENAME_RESOURCE_MAPPING`
(access_control.py lines 26-34): request-file name to resource configuration. -/
structure ResourceConfig where
  resource : String
  policy_args : Option (List String)
deriving DecidableEq

def CIRUN_FILENAME_RESOURCE_MAPPING : String → Option ResourceConfig :=
  fun name =>
    if name = "cirun-gpu-runner" then
      some { resource := "cirun-gpu-runner", policy_args := none }
    else if name = "cirun-gpu-runner-pr" then
      some { resource := "cirun-gpu-runner", policy_args := some ["pull_request"] }
    else none

/-- A directory entry: (filename, file content). -/
abbrev FileEntry := String × String

/-- `_get_access_control_files` (lines 40-45): every file except `example.txt`. -/
def get_access_control_files (files : List FileEntry) : List FileEntry :=
  files.filter (fun f => f.1 != "example.txt")

/-- `_get_filename_feedstock_mapping` (lines 48-54): parse every non-example
file and collect the results into a dict keyed by the parsed request name
(a later file with the same parsed name overwrites the earlier entry). -/
def get_filename_feedstock_mapping (files : List FileEntry) : List (String × List String) :=
  (get_access_control_files files).foldl
    (fun m f =>
      let p := parse_an_input_file f.1 f.2
      assocSet m p.1 p.2) []

/-- The arguments of one `conda-smithy register-ci` invocation as built by
`_process_request_for_feedstock` (lines 102-122): target feedstock repository,
`--cirun-resources` value, optional `--cirun-policy-args` values, and whether
`--remove` is appended. -/
structure RegisterCall where
  feedstock : String
  resource : String
  policy_args : Option (List String)
  remove : Bool
deriving DecidableEq

/-- A shell command issued by the pipeline. -/
inductive Cmd where
  | gitClone (repo : String)
  | registerCi (call : RegisterCall)
deriving DecidableEq

/-- `_process_request_for_feedstock` (lines 90-126).  `cloneExit` is the exit
status of the `git clone` run via `subprocess.run`, which the code never
inspects; `regExit` gives the exit status of the `register-ci` command, run
via `subprocess.check_call`, which raises `CalledProcessError` when nonzero.
Returns the commands issued and the outcome. -/
def process_request_for_feedstock (cloneExit : Nat) (regExit : RegisterCall → Nat)
    (feedstock resource : String) (remove : Bool) (policy_args : Option (List String)) :
    List Cmd × Except String Unit :=
  let call : RegisterCall :=
    { feedstock := feedstock, resource := resource,
      policy_args := policy_args, remove := remove }
  ([Cmd.gitClone feedstock, Cmd.registerCi call],
   if regExit call = 0 then Except.ok () else Except.error "CalledProcessError")

/-- The `update_access_yaml` call made by `_process_access_control_requests`
(lines 79-80): the action is `"remove"` or `"add"` according to the flag, so
the `ValueError` branch is unreachable; on it this wrapper returns `doc`. -/
def apply_update (doc : AccessControl) (resource feedstock_repo : String) (remove : Bool) :
    AccessControl :=
  match update_access_yaml doc resource feedstock_repo (if remove then "remove" else "add") with
  | Except.ok d => d
  | Except.error _ => doc

/-- The inner loop of `_process_access_control_requests` (lines 73-80): for
each feedstock of one request file, clone and register, then update the
manifest.  A registration failure propagates immediately: the manifest update
for that feedstock and all later feedstocks are skipped. -/
def process_feedstocks (cloneExit : String → Nat) (regExit : RegisterCall → Nat)
    (resource : String) (policy_args : Option (List String)) (remove : Bool) :
    List String → AccessControl → List Cmd × AccessControl × Except String Unit
  | [], doc => ([], doc, Except.ok ())
  | f :: rest, doc =>
    let repo := f ++ "-feedstock"
    let r := process_request_for_feedstock (cloneExit repo) regExit repo resource remove policy_args
    match r.2 with
    | Except.error e => (r.1, doc, Except.error e)
    | Except.ok () =>
      let doc2 := apply_update doc resource repo remove
      let rest2 := process_feedstocks cloneExit regExit resource policy_args remove rest doc2
      (r.1 ++ rest2.1, rest2.2.1, rest2.2.2)

/-- The outer loop of `_process_access_control_requests` (lines 68-80):
request names missing from the registry are silently skipped. -/
def process_mapping (cloneExit : String → Nat) (regExit : RegisterCall → Nat) (remove : Bool) :
    List (String × List String) → AccessControl → List Cmd × AccessControl × Except String Unit
  | [], doc => ([], doc, Except.ok ())
  | (name, fs) :: rest, doc =>
    match CIRUN_FILENAME_RESOURCE_MAPPING name with
    | none => process_mapping cloneExit regExit remove rest doc
    | some cfg =>
      let r := process_feedstocks cloneExit regExit cfg.resource cfg.policy_args remove fs doc
      match r.2.2 with
      | Except.error e => (r.1, r.2.1, Except.error e)
      | Except.ok () =>
        let r2 := process_mapping cloneExit regExit remove rest r.2.1
        (r.1 ++ r2.1, r2.2.1, r2.2.2)

/-- `_process_access_control_requests` (lines 65-80) for one directory. -/
def process_access_control_requests_for (cloneExit : String → Nat)
    (regExit : RegisterCall → Nat) (files : List FileEntry) (remove : Bool)
    (doc : AccessControl) : List Cmd × AccessControl × Except String Unit :=
  process_mapping cloneExit regExit remove (get_filename_feedstock_mapping files) doc

/-- The `owner/repo` string queried for a feedstock name (lines 130-131). -/
def ownerRepo (feedstock_name : String) : String :=
  GH_ORG ++ "/" ++ (feedstock_name ++ "-feedstock")

/-- `check_if_repo_exists` (lines 129-135): `status` gives the HTTP status of
`GET https://api.github.com/repos/<owner_repo>`; any status other than 200
raises `ValueError`.  The function performs no other action. -/
def check_if_repo_exists (status : String → Nat) (feedstock_name : String) :
    Except String Unit :=
  if status (ownerRepo feedstock_name) ≠ 200 then
    Except.error ("Repository: " ++ ownerRepo feedstock_name ++ " not found!")
  else Except.ok ()

/-- The per-file feedstock loop of `_check_for_path` (lines 142-143). -/
def check_feedstocks (status : String → Nat) : List String → Except String Unit
  | [] => Except.ok ()
  | f :: rest =>
    match check_if_repo_exists status f with
    | Except.error e => Except.error e
    | Except.ok () => check_feedstocks status rest

/-- The loop of `_check_for_path` (lines 139-143): `assert filename in
CIRUN_FILENAME_RESOURCE_MAPPING`, then check every feedstock's repository. -/
def check_mapping (status : String → Nat) : List (String × List String) → Except String Unit
  | [] => Except.ok ()
  | (name, fs) :: rest =>
    if (CIRUN_FILENAME_RESOURCE_MAPPING name).isSome then
      match check_feedstocks status fs with
      | Except.error e => Except.error e
      | Except.ok () => check_mapping status rest
    else Except.error ("AssertionError: " ++ name)

/-- `_check_for_path` (lines 137-145). -/
def check_for_path (status : String → Nat) (files : List FileEntry) : Except String Unit :=
  check_mapping status (get_filename_feedstock_mapping files)

/-- The on-disk state the pipeline touches: the two request directories and
the `access_control` mapping of `.access_control.yml`. -/
structure World where
  grantFiles : List FileEntry
  revokeFiles : List FileEntry
  manifest : AccessControl
deriving DecidableEq

/-- `check` (lines 147-150): validate `grant_access/`, then `revoke_access/`. -/
def check (status : String → Nat) (w : World) : Except String Unit :=
  match check_for_path status w.grantFiles with
  | Except.error e => Except.error e
  | Except.ok () => check_for_path status w.revokeFiles

/-- `process_access_control_requests` (lines 83-87): grant with
`remove=False`, then revoke with `remove=True`, threading the manifest. -/
def process_all (cloneExit : String → Nat) (regExit : RegisterCall → Nat) (w : World) :
    List Cmd × AccessControl × Except String Unit :=
  let g := process_access_control_requests_for cloneExit regExit w.grantFiles false w.manifest
  match g.2.2 with
  | Except.error e => (g.1, g.2.1, Except.error e)
  | Except.ok () =>
    let r := process_access_control_requests_for cloneExit regExit w.revokeFiles true g.2.1
    (g.1 ++ r.1, r.2.1, r.2.2)

/-- `_remove_input_files` (lines 169-180): delete every file of the directory
except the kept template `example.txt`. -/
def remove_input_files (files : List FileEntry) : List FileEntry :=
  files.filter (fun f => f.1 == "example.txt")

/-- `main` (lines 232-237): `check()`, then process both directories, then
delete the request files of both directories (keeping the templates).  An
exception from `check` aborts before any processing; an exception during
processing aborts before any file deletion (the manifest keeps the updates
persisted so far).  Returns the commands issued, the final on-disk state and
the outcome. -/
def main (status : String → Nat) (cloneExit : String → Nat) (regExit : RegisterCall → Nat)
    (w : World) : List Cmd × World × Except String Unit :=
  match check status w with
  | Except.error e => ([], w, Except.error e)
  | Except.ok () =>
    let p := process_all cloneExit regExit w
    match p.2.2 with
    | Except.error e => (p.1, { w with manifest := p.2.1 }, Except.error e)
    | Except.ok () =>
      (p.1,
       { grantFiles := remove_input_files w.grantFiles,
         revokeFiles := remove_input_files w.revokeFiles,
         manifest := p.2.1 },
       Except.ok ())

/-- Newline-free lines joined by `'\n'`: `joinLines ls ++ ['\n']` is the
canonical content of a newline-terminated text file whose lines are `ls`. -/
def joinLines : List (List Char) → List Char
  | [] => []
  | [l] => l
  | l :: ls => l ++ '\n' :: joinLines ls

/-- The documented manifest invariant: within one resource's list the
feedstock names are pairwise distinct. -/
def ManifestInv (doc : AccessControl) : Prop :=
  ∀ p ∈ doc, (p.2.map AccessEntry.feedstock).Nodup

/-- The condition `_check_for_path` verifies for one directory: every parsed
request name is a registry key and every listed feedstock's repository query
returns HTTP 200. -/
def check_passes (status : String → Nat) (files : List FileEntry) : Bool :=
  (get_filename_feedstock_mapping files).all (fun p =>
    (CIRUN_FILENAME_RESOURCE_MAPPING p.1).isSome &&
      p.2.all (fun f => status (ownerRepo f) == 200))

/-- The condition `check` verifies: both directories pass validation. -/
def check_passes_world (status : String → Nat) (w : World) : Bool :=
  check_passes status w.grantFiles && check_passes status w.revokeFiles

/-! Helper lemmas about the association-list operations. -/

theorem assocFind_assocSet_self {α : Type} (m : List (String × α)) (k : String) (v : α) :
    assocFind (assocSet m k v) k = some v := by
  induction m with
  | nil => simp [assocSet, assocFind]
  | cons p rest ih =>
    by_cases h : p.1 = k <;>
      simp [assocSet, assocFind, h, ih]

theorem assocFind_assocSet_ne {α : Type} (m : List (String × α)) (k k2 : String) (v : α)
    (h : k2 ≠ k) : assocFind (assocSet m k v) k2 = assocFind m k2 := by
  have hk : k ≠ k2 := fun he => h he.symm
  induction m with
  | nil => simp [assocSet, assocFind, hk]
  | cons p rest ih =>
    obtain ⟨k0, w⟩ := p
    by_cases hp : k0 = k
    · simp [assocSet, assocFind, hp, hk]
    · simp [assocSet, assocFind, hp, ih]

theorem assocSet_assocSet {α : Type} (m : List (String × α)) (k : String) (v w : α) :
    assocSet (assocSet m k v) k w = assocSet m k w := by
  induction m with
  | nil => simp [assocSet]
  | cons p rest ih =>
    by_cases h : p.1 = k <;> simp [assocSet, h, ih]

theorem mem_assocSet {α : Type} {m : List (String × α)} {k : String} {v : α}
    {p : String × α} (hp : p ∈ assocSet m k v) : p = (k, v) ∨ p ∈ m := by
  induction m with
  | nil => simpa [assocSet] using hp
  | cons q rest ih =>
    by_cases h : q.1 = k
    · rcases (by simpa [assocSet, h] using hp) with h1 | h1
      · exact Or.inl h1
      · exact Or.inr (List.mem_cons_of_mem _ h1)
    · rcases (by simpa [assocSet, h] using hp) with h1 | h1
      · exact Or.inr (by simp [h1])
      · rcases ih h1 with h2 | h2
        · exact Or.inl h2
        · exact Or.inr (List.mem_cons_of_mem _ h2)

theorem assocFind_mem {α : Type} {m : List (String × α)} {k : String} {v : α}
    (h : assocFind m k = some v) : (k, v) ∈ m := by
  induction m with
  | nil => simp [assocFind] at h
  | cons p rest ih =>
    obtain ⟨k0, w⟩ := p
    by_cases hp : k0 = k
    · have hv : w = v := by simpa [assocFind, hp] using h
      rw [hp, hv]
      exact List.mem_cons_self _ _
    · exact List.mem_cons_of_mem _ (ih (by simpa [assocFind, hp] using h))

theorem acGetD_of_none {doc : AccessControl} {r : String}
    (h : assocFind doc r = none) : acGetD doc r = [] := by
  simp [acGetD, h]

/-! Unfolded behavior of `update_access_yaml` on the two valid actions. -/

theorem update_add_spec (doc : AccessControl) (r f : String) :
    update_access_yaml doc r f "add" =
      if (acGetD doc r).any (fun e => e.feedstock == f) then Except.ok doc
      else Except.ok (assocSet doc r (acGetD doc r ++ [{ feedstock := f }])) := by
  unfold update_access_yaml
  rcases hfind : assocFind doc r with _ | l
  · have hempty : acGetD doc r = [] := acGetD_of_none hfind
    have hget : acGetD (assocSet doc r []) r = [] := by
      simp [acGetD, assocFind_assocSet_self]
    simp [hfind, hempty, hget, assocSet_assocSet]
  · have hget : acGetD doc r = l := by simp [acGetD, hfind]
    simp [hfind, hget]

theorem update_remove_spec (doc : AccessControl) (r f : String) :
    update_access_yaml doc r f "remove" =
      if (acGetD doc r).isEmpty then Except.ok doc
      else Except.ok (assocSet doc r ((acGetD doc r).filter (fun e => e.feedstock != f))) := by
  unfold update_access_yaml
  rcases hfind : assocFind doc r with _ | l
  · have hempty : acGetD doc r = [] := acGetD_of_none hfind
    have hget : acGetD (assocSet doc r []) r = [] := by
      simp [acGetD, assocFind_assocSet_self]
    simp [hfind, hempty, hget]
  · have hget : acGetD doc r = l := by simp [acGetD, hfind]
    simp [hfind, hget]

/-- C4: for every action value outside add/remove, `update_access_yaml` fails
with the `ValueError`; in this embedding an `error` result is the exception
path, which is taken before any `yaml.dump`, so the manifest file on disk is
unmodified.  This holds for every document, resource and feedstock name,
including a resource not yet present in the document. -/
theorem update_invalid_action_errors (doc : AccessControl) (r f a : String)
    (h1 : a ≠ "add") (h2 : a ≠ "remove") :
    update_access_yaml doc r f a =
      Except.error ("Invalid action " ++ a ++ ". Choose add or remove.") := by
  unfold update_access_yaml
  simp [h1, h2]

theorem update_invalid_action_errors_witness :
    update_access_yaml [] "cirun-gpu-runner" "foo-feedstock" "frobnicate" =
      Except.error ("Invalid action " ++ "frobnicate" ++ ". Choose add or remove.") :=
  update_invalid_action_errors [] "cirun-gpu-runner" "foo-feedstock" "frobnicate"
    (by decide) (by decide)

/-- C5: `update_access_yaml` with action remove: when the resource is absent
or its list is empty, the persisted document is unchanged; otherwise the
resource's list afterwards is the original list with every entry whose
feedstock equals the given name filtered out (duplicates included), and every
other resource's entry is unchanged. -/
theorem update_remove_semantics (doc : AccessControl) (r f : String) :
    (acGetD doc r = [] → update_access_yaml doc r f "remove" = Except.ok doc) ∧
    (acGetD doc r ≠ [] →
      update_access_yaml doc r f "remove" =
        Except.ok (assocSet doc r ((acGetD doc r).filter (fun e => e.feedstock != f))) ∧
      acGetD (assocSet doc r ((acGetD doc r).filter (fun e => e.feedstock != f))) r =
        (acGetD doc r).filter (fun e => e.feedstock != f) ∧
      ∀ r2, r2 ≠ r →
        assocFind (assocSet doc r ((acGetD doc r).filter (fun e => e.feedstock != f))) r2 =
          assocFind doc r2) := by
  constructor
  · intro h
    rw [update_remove_spec, h]
    simp
  · intro h
    refine ⟨?_, ?_, ?_⟩
    · rw [update_remove_spec, if_neg (by simpa [List.isEmpty_iff] using h)]
    · simp [acGetD, assocFind_assocSet_self]
    · intro r2 h2
      exact assocFind_assocSet_ne _ _ _ _ h2

theorem update_remove_semantics_witness :
    update_access_yaml [("cirun-gpu-runner", [AccessEntry.mk "foo-feedstock"])]
        "cirun-gpu-runner" "foo-feedstock" "remove" =
      Except.ok (assocSet [("cirun-gpu-runner", [AccessEntry.mk "foo-feedstock"])]
        "cirun-gpu-runner"
        ((acGetD [("cirun-gpu-runner", [AccessEntry.mk "foo-feedstock"])]
            "cirun-gpu-runner").filter (fun e => e.feedstock != "foo-feedstock"))) :=
  ((update_remove_semantics [("cirun-gpu-runner", [AccessEntry.mk "foo-feedstock"])]
      "cirun-gpu-runner" "foo-feedstock").2 (by decide)).1

/-- C7 counterexample: on a manifest already holding two entries for the same
feedstock under the resource, add is a no-op and the list afterwards holds two
entries for that feedstock, not exactly one — the claim fails on manifests
violating the uniqueness invariant. -/
theorem update_add_idempotent_counterexample :
    update_access_yaml [("r", [AccessEntry.mk "f", AccessEntry.mk "f"])] "r" "f" "add" =
      Except.ok [("r", [AccessEntry.mk "f", AccessEntry.mk "f"])] ∧
    ((acGetD [("r", [AccessEntry.mk "f", AccessEntry.mk "f"])] "r").filter
        (fun e => e.feedstock == "f")).length = 2 :=
  ⟨rfl, rfl⟩

/-- C7 (amended): on every manifest holding at most one entry for the
feedstock under the resource — in particular under the documented uniqueness
invariant — add applied twice yields the same document as applied once, the
second application is a no-op, and the resource's list afterwards holds
exactly one entry for that feedstock. -/
theorem update_add_idempotent (doc : AccessControl) (r f : String)
    (h : ((acGetD doc r).filter (fun e => e.feedstock == f)).length ≤ 1) :
    ∃ d, update_access_yaml doc r f "add" = Except.ok d ∧
      update_access_yaml d r f "add" = Except.ok d ∧
      ((acGetD d r).filter (fun e => e.feedstock == f)).length = 1 := by
  by_cases hany : (acGetD doc r).any (fun e => e.feedstock == f)
  · refine ⟨doc, ?_, ?_, ?_⟩
    · rw [update_add_spec, if_pos hany]
    · rw [update_add_spec, if_pos hany]
    · obtain ⟨e, he, hef⟩ := List.any_eq_true.mp hany
      have hmem : e ∈ (acGetD doc r).filter (fun e => e.feedstock == f) :=
        List.mem_filter.mpr ⟨he, hef⟩
      have hpos : 0 < ((acGetD doc r).filter (fun e => e.feedstock == f)).length :=
        List.length_pos_of_mem hmem
      exact Nat.le_antisymm h hpos
  · have hnone : ∀ e ∈ acGetD doc r, ¬ (e.feedstock == f) = true := by
      simpa [List.any_eq_true] using hany
    refine ⟨assocSet doc r (acGetD doc r ++ [{ feedstock := f }]), ?_, ?_, ?_⟩
    · rw [update_add_spec, if_neg (by simp [hany])]
    · rw [update_add_spec]
      have hget : acGetD (assocSet doc r (acGetD doc r ++ [{ feedstock := f }])) r =
          acGetD doc r ++ [{ feedstock := f }] := by
        simp [acGetD, assocFind_assocSet_self]
      rw [if_pos (by simp [hget, List.any_append])]
    · have hget : acGetD (assocSet doc r (acGetD doc r ++ [{ feedstock := f }])) r =
          acGetD doc r ++ [{ feedstock := f }] := by
        simp [acGetD, assocFind_assocSet_self]
      rw [hget, List.filter_append]
      have hfe : (acGetD doc r).filter (fun e => e.feedstock == f) = [] := by
        rw [List.filter_eq_nil_iff]
        exact hnone
      simp [hfe]

theorem update_add_idempotent_witness :
    ∃ d, update_access_yaml [] "cirun-gpu-runner" "foo-feedstock" "add" = Except.ok d ∧
      update_access_yaml d "cirun-gpu-runner" "foo-feedstock" "add" = Except.ok d ∧
      ((acGetD d "cirun-gpu-runner").filter
        (fun e => e.feedstock == "foo-feedstock")).length = 1 :=
  update_add_idempotent [] "cirun-gpu-runner" "foo-feedstock" (by decide)

theorem dropWhile_all_append {α : Type} (p : α → Bool) (a b : List α)
    (h : ∀ x ∈ a, p x = true) : (a ++ b).dropWhile p = b.dropWhile p := by
  induction a with
  | nil => rfl
  | cons x xs ih =>
    rw [List.cons_append, List.dropWhile_cons, if_pos (h x (List.mem_cons_self _ _))]
    exact ih (fun y hy => h y (List.mem_cons_of_mem _ hy))

theorem stripChars_of_ends (cs : List Char) (nm : List Char) (c d : Char)
    (hhead : nm.head? = some c) (hc : c ∉ cs)
    (hlast : nm.getLast? = some d) (hd : d ∉ cs)
    (ext : List Char) (hext : ∀ x ∈ ext, x ∈ cs) :
    stripChars cs (nm ++ ext) = nm := by
  cases nm with
  | nil => simp at hhead
  | cons a t =>
    have ha : a = c := by simpa using hhead
    subst ha
    unfold stripChars
    rw [List.cons_append, List.dropWhile_cons, if_neg (by simpa using hc)]
    rw [List.reverse_cons, List.reverse_append, List.append_assoc]
    rw [dropWhile_all_append _ _ _ (by
      intro x hx
      simp only [List.mem_reverse] at hx
      simpa using hext x hx)]
    have hrev : (t.reverse ++ [a]).head? = some d := by
      rw [← List.reverse_cons, List.head?_reverse]
      exact hlast
    rcases htr : t.reverse ++ [a] with _ | ⟨d0, tl⟩
    · exact absurd htr (by simp)
    · rw [htr] at hrev
      have hd0 : d0 = d := by simpa using hrev
      rw [List.dropWhile_cons, if_neg (by simp [hd0]; simpa using hd)]
      rw [← htr, ← List.reverse_cons, List.reverse_reverse]

/-- C2 counterexample: the file name `test.txt` parses to request name `es`,
not `test`: `strip(".txt")` removes set characters from both ends, so the
leading `t` and the `t` preceding the extension are removed too. -/
theorem parse_name_counterexample :
    (parse_an_input_file "test.txt" "").1 = "es" ∧ "es" ≠ "test" := by
  exact ⟨by decide, by decide⟩

/-- C2 (amended): the request name is the filename with every leading and
every trailing character belonging to the character set of `".txt"` removed
(Python `str.strip(".txt")` semantics); for a filename `<name>.txt` it equals
`<name>` exactly when `<name>` neither starts nor ends with one of the
characters `.`, `t`, `x`. -/
theorem parse_name_of_plain_ends (nm : List Char) (content : String) (c d : Char)
    (hhead : nm.head? = some c) (hc : c ∉ ".txt".toList)
    (hlast : nm.getLast? = some d) (hd : d ∉ ".txt".toList) :
    (parse_an_input_file (String.mk (nm ++ ".txt".toList)) content).1 = String.mk nm := by
  unfold parse_an_input_file pyStrip
  have htl : (String.mk (nm ++ ".txt".toList)).toList = nm ++ ".txt".toList := rfl
  rw [htl, stripChars_of_ends _ nm c d hhead hc hlast hd _ (fun x hx => hx)]

theorem parse_name_of_plain_ends_witness :
    (parse_an_input_file (String.mk ("cirun-gpu-runner".toList ++ ".txt".toList))
        "foo\nbar").1 = String.mk "cirun-gpu-runner".toList :=
  parse_name_of_plain_ends "cirun-gpu-runner".toList "foo\nbar" 'c' 'r'
    (by decide) (by decide) (by decide) (by decide)

theorem pyLines_line_append (l s : List Char) (h : '\n' ∉ l) :
    pyLines (l ++ '\n' :: s) = l :: pyLines s := by
  induction l with
  | nil => simp [pyLines]
  | cons c t ih =>
    rw [List.mem_cons] at h
    push_neg at h
    obtain ⟨h1, h2⟩ := h
    have hc : ¬ c = '\n' := fun he => h1 he.symm
    have hrec := ih h2
    rw [List.cons_append]
    conv_lhs => rw [pyLines]
    rw [if_neg hc, hrec]

theorem pyLines_joinLines (ls : List (List Char)) (h0 : ls ≠ [])
    (h : ∀ l ∈ ls, '\n' ∉ l) :
    pyLines (joinLines ls ++ ['\n']) = ls := by
  induction ls with
  | nil => exact absurd rfl h0
  | cons l rest ih =>
    cases rest with
    | nil =>
      have hl : '\n' ∉ l := h l (List.mem_cons_self _ _)
      have hj : joinLines [l] = l := rfl
      rw [hj, pyLines_line_append l [] hl]
      rfl
    | cons l2 rest2 =>
      have hl : '\n' ∉ l := h l (List.mem_cons_self _ _)
      have hj : joinLines (l :: l2 :: rest2) = l ++ '\n' :: joinLines (l2 :: rest2) := rfl
      rw [hj, List.append_assoc, List.cons_append]
      rw [pyLines_line_append l _ hl]
      rw [ih (by simp) (fun x hx => h x (List.mem_cons_of_mem _ hx))]

/-- C3 counterexample: the file content `"foo\n\n"` — last line blank — parses
to `["foo", ""]`: the empty-string entity produced by the blank trailing line
is kept, not dropped. -/
theorem parse_lines_counterexample :
    (parse_an_input_file "a.txt" "foo\n\n").2 = ["foo", ""] ∧
      "" ∈ (parse_an_input_file "a.txt" "foo\n\n").2 := by
  exact ⟨by decide, by decide⟩

/-- C3 (amended): for a newline-terminated file whose lines `ls` contain no
newline character, the parser returns exactly those lines, each
whitespace-trimmed, in order and with duplicates preserved.  Blank lines —
trailing ones included — are not dropped and appear as empty-string entities
(see the counterexample); only the final line terminator itself adds no
entry. -/
theorem parse_lines_trimmed (fileName : String) (ls : List (List Char))
    (h0 : ls ≠ []) (h : ∀ l ∈ ls, '\n' ∉ l) :
    (parse_an_input_file fileName (String.mk (joinLines ls ++ ['\n']))).2 =
      ls.map (fun l => pyStripWs (String.mk l)) := by
  unfold parse_an_input_file
  have htl : (String.mk (joinLines ls ++ ['\n'])).toList = joinLines ls ++ ['\n'] := rfl
  rw [htl, pyLines_joinLines ls h0 h]

theorem parse_lines_trimmed_witness :
    (parse_an_input_file "cirun-gpu-runner.txt"
        (String.mk (joinLines ["  foo".toList, "bar".toList, "foo".toList] ++ ['\n']))).2 =
      ["  foo".toList, "bar".toList, "foo".toList].map (fun l => pyStripWs (String.mk l)) :=
  parse_lines_trimmed "cirun-gpu-runner.txt"
    ["  foo".toList, "bar".toList, "foo".toList] (by decide) (by decide)

/-- C6: on a manifest in which every resource's feedstock names are pairwise
distinct, `update_access_yaml` with either valid action succeeds and the
resulting document still satisfies the property; add moreover leaves the
resource's list either unchanged (entry already present) or equal to the
original list with the new entry appended at the end — preserving the
relative order of existing entries — and the resource key exists afterwards
even when it was absent before. -/
theorem update_preserves_invariant (doc : AccessControl) (hinv : ManifestInv doc)
    (r f a : String) (ha : a = "add" ∨ a = "remove") :
    ∃ d, update_access_yaml doc r f a = Except.ok d ∧ ManifestInv d ∧
      (a = "add" →
        acGetD d r =
          (if (acGetD doc r).any (fun e => e.feedstock == f) then acGetD doc r
           else acGetD doc r ++ [{ feedstock := f }]) ∧
        (assocFind d r).isSome) := by
  have hnodup : (List.map AccessEntry.feedstock (acGetD doc r)).Nodup := by
    rcases hfd : assocFind doc r with _ | l
    · simp [acGetD, hfd]
    · have : acGetD doc r = l := by simp [acGetD, hfd]
      rw [this]
      exact hinv (r, l) (assocFind_mem hfd)
  rcases ha with rfl | rfl
  · by_cases hany : (acGetD doc r).any (fun e => e.feedstock == f)
    · refine ⟨doc, by rw [update_add_spec, if_pos hany], hinv, fun _ => ⟨by rw [if_pos hany], ?_⟩⟩
      rcases hfd : assocFind doc r with _ | l
      · rw [acGetD_of_none hfd] at hany
        simp at hany
      · simp
    · have hget : acGetD (assocSet doc r (acGetD doc r ++ [{ feedstock := f }])) r =
          acGetD doc r ++ [{ feedstock := f }] := by
        simp [acGetD, assocFind_assocSet_self]
      refine ⟨assocSet doc r (acGetD doc r ++ [{ feedstock := f }]),
        by rw [update_add_spec, if_neg (by simp [hany])], ?_,
        fun _ => ⟨by rw [if_neg (by simp [hany]), hget], by simp [assocFind_assocSet_self]⟩⟩
      intro p hp
      rcases mem_assocSet hp with rfl | hp2
      · have hnot : ∀ e ∈ acGetD doc r, ¬ (e.feedstock == f) = true := by
          simpa [List.any_eq_true] using hany
        simp only [List.map_append, List.map_cons, List.map_nil]
        rw [List.nodup_append]
        refine ⟨hnodup, List.nodup_singleton _, ?_⟩
        intro x hx hx2
        have hxf : x = f := by simpa using hx2
        obtain ⟨e, he, hef⟩ := List.mem_map.mp hx
        exact hnot e he (by simp [hef, hxf])
      · exact hinv p hp2
  · by_cases hemp : (acGetD doc r).isEmpty
    · exact ⟨doc, by rw [update_remove_spec, if_pos hemp], hinv,
        fun hcontr => absurd hcontr (by decide)⟩
    · refine ⟨assocSet doc r ((acGetD doc r).filter (fun e => e.feedstock != f)),
        by rw [update_remove_spec, if_neg hemp], ?_,
        fun hcontr => absurd hcontr (by decide)⟩
      intro p hp
      rcases mem_assocSet hp with rfl | hp2
      · exact List.Nodup.sublist (List.Sublist.map _ (List.filter_sublist _)) hnodup
      · exact hinv p hp2

theorem update_preserves_invariant_witness :
    ∃ d, update_access_yaml [("cirun-gpu-runner", [AccessEntry.mk "foo-feedstock"])]
        "cirun-gpu-runner" "bar-feedstock" "add" = Except.ok d ∧ ManifestInv d ∧
      ("add" = "add" →
        acGetD d "cirun-gpu-runner" =
          (if (acGetD [("cirun-gpu-runner", [AccessEntry.mk "foo-feedstock"])]
                "cirun-gpu-runner").any (fun e => e.feedstock == "bar-feedstock") then
            acGetD [("cirun-gpu-runner", [AccessEntry.mk "foo-feedstock"])] "cirun-gpu-runner"
           else acGetD [("cirun-gpu-runner", [AccessEntry.mk "foo-feedstock"])]
              "cirun-gpu-runner" ++ [{ feedstock := "bar-feedstock" }]) ∧
        (assocFind d "cirun-gpu-runner").isSome) :=
  update_preserves_invariant [("cirun-gpu-runner", [AccessEntry.mk "foo-feedstock"])]
    (by intro p hp; simp only [List.mem_singleton] at hp; subst hp; decide)
    "cirun-gpu-runner" "bar-feedstock" "add" (Or.inl rfl)

/-- C8: in `_process_request_for_feedstock` the clone's exit status is never
inspected — the commands issued and the outcome are identical for every clone
exit status, and the registration command is attempted regardless — while a
nonzero exit of the registration tool yields the subprocess error; inside the
per-file loop such a failure stops everything at once: with the failing entity
first, no later entity is cloned, registered, or written to the manifest,
whatever the rest of the list is. -/
theorem clone_unchecked_register_fatal (regExit : RegisterCall → Nat)
    (f r : String) (rm : Bool) (pa : Option (List String)) :
    (∀ ce1 ce2 : Nat,
      process_request_for_feedstock ce1 regExit f r rm pa =
        process_request_for_feedstock ce2 regExit f r rm pa) ∧
    (∀ ce : Nat,
      Cmd.registerCi { feedstock := f, resource := r, policy_args := pa, remove := rm } ∈
        (process_request_for_feedstock ce regExit f r rm pa).1) ∧
    (∀ ce : Nat,
      ((process_request_for_feedstock ce regExit f r rm pa).2 = Except.ok () ↔
        regExit { feedstock := f, resource := r, policy_args := pa, remove := rm } = 0)) ∧
    (∀ (cloneExit : String → Nat) (g : String) (rest : List String) (doc : AccessControl),
      regExit { feedstock := g ++ "-feedstock", resource := r, policy_args := pa,
                remove := rm } ≠ 0 →
      process_feedstocks cloneExit regExit r pa rm (g :: rest) doc =
        ([Cmd.gitClone (g ++ "-feedstock"),
          Cmd.registerCi { feedstock := g ++ "-feedstock", resource := r,
                           policy_args := pa, remove := rm }],
         doc, Except.error "CalledProcessError")) := by
  refine ⟨fun _ _ => rfl, fun ce => by simp [process_request_for_feedstock], fun ce => ?_,
    fun cloneExit g rest doc hreg => ?_⟩
  · unfold process_request_for_feedstock
    by_cases h : regExit { feedstock := f, resource := r, policy_args := pa,
                           remove := rm } = 0 <;> simp [h]
  · simp [process_feedstocks, process_request_for_feedstock, hreg]

theorem clone_unchecked_register_fatal_witness :
    process_feedstocks (fun _ => 0) (fun _ => 1) "cirun-gpu-runner" none false
        ["foo", "bar"] [] =
      ([Cmd.gitClone ("foo" ++ "-feedstock"),
        Cmd.registerCi { feedstock := "foo" ++ "-feedstock", resource := "cirun-gpu-runner",
                         policy_args := none, remove := false }],
       [], Except.error "CalledProcessError") :=
  (clone_unchecked_register_fatal (fun _ => 1) "unused" "cirun-gpu-runner" false
    none).2.2.2 (fun _ => 0) "foo" ["bar"] [] (by decide)

/-- C9: `check_if_repo_exists` raises the not-found `ValueError` exactly when
the existence query for `<org>/<entity>-feedstock` completes with a status
code other than 200, and returns normally on 200.  It is, by construction of
this embedding, a pure function of the response status: it performs no file,
manifest or repository mutation. -/
theorem repo_exists_check_iff (status : String → Nat) (name : String) :
    (check_if_repo_exists status name = Except.ok () ↔ status (ownerRepo name) = 200) ∧
    ((∃ e, check_if_repo_exists status name = Except.error e) ↔
      status (ownerRepo name) ≠ 200) := by
  unfold check_if_repo_exists
  by_cases h : status (ownerRepo name) = 200 <;> simp [h]

theorem check_feedstocks_ok_iff (status : String → Nat) (fs : List String) :
    check_feedstocks status fs = Except.ok () ↔
      ∀ f ∈ fs, status (ownerRepo f) = 200 := by
  induction fs with
  | nil => simp [check_feedstocks]
  | cons f rest ih =>
    unfold check_feedstocks check_if_repo_exists
    by_cases h : status (ownerRepo f) = 200 <;> simp [h, ih]

theorem check_mapping_ok_iff (status : String → Nat) (m : List (String × List String)) :
    check_mapping status m = Except.ok () ↔
      ∀ p ∈ m, (CIRUN_FILENAME_RESOURCE_MAPPING p.1).isSome = true ∧
        ∀ f ∈ p.2, status (ownerRepo f) = 200 := by
  induction m with
  | nil => simp [check_mapping]
  | cons p rest ih =>
    obtain ⟨name, fs⟩ := p
    unfold check_mapping
    by_cases hn : (CIRUN_FILENAME_RESOURCE_MAPPING name).isSome
    · rcases hcf : check_feedstocks status fs with e | u
      · have hnall : ¬ ∀ f ∈ fs, status (ownerRepo f) = 200 := by
          intro hall
          rw [(check_feedstocks_ok_iff status fs).mpr hall] at hcf
          exact Except.noConfusion hcf
        rw [if_pos hn]
        show Except.error e = Except.ok () ↔ _
        constructor
        · intro h
          exact Except.noConfusion h
        · intro h
          exact absurd (fun f hf => (h (name, fs) (List.mem_cons_self _ _)).2 f hf) hnall
      · cases u
        have hall : ∀ f ∈ fs, status (ownerRepo f) = 200 :=
          (check_feedstocks_ok_iff status fs).mp (by rw [hcf])
        rw [if_pos hn]
        show check_mapping status rest = Except.ok () ↔ _
        rw [ih]
        constructor
        · intro h p hp
          rcases List.mem_cons.mp hp with rfl | hp2
          · exact ⟨hn, hall⟩
          · exact h p hp2
        · intro h p hp
          exact h p (List.mem_cons_of_mem _ hp)
    · rw [if_neg hn]
      constructor
      · intro h
        exact Except.noConfusion h
      · intro h
        exact absurd (h (name, fs) (List.mem_cons_self _ _)).1 hn

theorem check_for_path_ok_iff (status : String → Nat) (files : List FileEntry) :
    check_for_path status files = Except.ok () ↔ check_passes status files = true := by
  unfold check_for_path check_passes
  rw [check_mapping_ok_iff]
  rw [List.all_eq_true]
  constructor
  · intro h p hp
    obtain ⟨h1, h2⟩ := h p hp
    simp only [Bool.and_eq_true, h1, List.all_eq_true, true_and]
    intro f hf
    simpa using h2 f hf
  · intro h p hp
    have := h p hp
    simp only [Bool.and_eq_true, List.all_eq_true] at this
    obtain ⟨h1, h2⟩ := this
    exact ⟨h1, fun f hf => by simpa using h2 f hf⟩

/-- C10: in the default full run `main` executes the validation pass first;
`check` succeeds exactly when every parsed request name of both directories
is a registry key and every listed feedstock's existence query returns 200,
and whenever that validation fails the whole run aborts on the validation
error with no command issued (no clone, no registration), the manifest
unwritten and the request files undeleted: the world is returned unchanged. -/
theorem check_gates_processing (status : String → Nat) (cloneExit : String → Nat)
    (regExit : RegisterCall → Nat) (w : World) :
    (check status w = Except.ok () ↔ check_passes_world status w = true) ∧
    (check_passes_world status w = false →
      ∃ e, main status cloneExit regExit w = ([], w, Except.error e)) := by
  have hchk : check status w = Except.ok () ↔ check_passes_world status w = true := by
    unfold check check_passes_world
    rcases hg : check_for_path status w.grantFiles with e | u
    · have : ¬ check_passes status w.grantFiles = true := by
        intro h
        rw [(check_for_path_ok_iff status w.grantFiles).mpr h] at hg
        exact Except.noConfusion hg
      simp [hg, Bool.and_eq_true, this]
    · have hgp : check_passes status w.grantFiles = true :=
        (check_for_path_ok_iff status w.grantFiles).mp (by rw [hg])
      simp [hg, check_for_path_ok_iff, Bool.and_eq_true, hgp]
  refine ⟨hchk, fun hfail => ?_⟩
  rcases hc : check status w with e | u
  · exact ⟨e, by unfold main; rw [hc]⟩
  · exact absurd (hchk.mp (by rw [hc])) (by simp [hfail])

theorem check_gates_processing_witness :
    ∃ e, main (fun _ => 200) (fun _ => 0) (fun _ => 0)
        { grantFiles := [("bogus.txt", "foo")], revokeFiles := [], manifest := [] } =
      ([], { grantFiles := [("bogus.txt", "foo")], revokeFiles := [], manifest := [] },
        Except.error e) :=
  (check_gates_processing (fun _ => 200) (fun _ => 0) (fun _ => 0)
    { grantFiles := [("bogus.txt", "foo")], revokeFiles := [], manifest := [] }).2
    (by decide)

/-- C1: with `grant_access/` holding the template plus one file
`cirun-gpu-runner.txt` whose body is the two lines `foo` and `bar`, and
`revoke_access/` holding only the template, a full run in which both
repository queries return 200 and every registration exits 0 performs exactly
two registration invocations — one per entity, in file order, each with
resource `cirun-gpu-runner`, no policy qualifiers and no removal flag — the
manifest gains exactly the two entries `{feedstock: foo-feedstock}` and
`{feedstock: bar-feedstock}` appended under that resource, and afterwards
every file of both request directories except the templates is deleted. -/
theorem full_run_grant_two (doc : AccessControl) (status : String → Nat)
    (cloneExit : String → Nat) (regExit : RegisterCall → Nat) (gex rex : String)
    (hfoo : (acGetD doc "cirun-gpu-runner").any
      (fun e => e.feedstock == "foo-feedstock") = false)
    (hbar : (acGetD doc "cirun-gpu-runner").any
      (fun e => e.feedstock == "bar-feedstock") = false)
    (hsfoo : status (ownerRepo "foo") = 200)
    (hsbar : status (ownerRepo "bar") = 200)
    (hreg : ∀ c, regExit c = 0) :
    main status cloneExit regExit
      { grantFiles := [("example.txt", gex), ("cirun-gpu-runner.txt", "foo\nbar")],
        revokeFiles := [("example.txt", rex)], manifest := doc } =
    ([Cmd.gitClone "foo-feedstock",
      Cmd.registerCi { feedstock := "foo-feedstock", resource := "cirun-gpu-runner",
                       policy_args := none, remove := false },
      Cmd.gitClone "bar-feedstock",
      Cmd.registerCi { feedstock := "bar-feedstock", resource := "cirun-gpu-runner",
                       policy_args := none, remove := false }],
     { grantFiles := [("example.txt", gex)], revokeFiles := [("example.txt", rex)],
       manifest := assocSet doc "cirun-gpu-runner"
         (acGetD doc "cirun-gpu-runner" ++
           [{ feedstock := "foo-feedstock" }, { feedstock := "bar-feedstock" }]) },
     Except.ok ()) := by
  have hmapg : get_filename_feedstock_mapping
      [("example.txt", gex), ("cirun-gpu-runner.txt", "foo\nbar")] =
      [("cirun-gpu-runner", ["foo", "bar"])] := rfl
  have hmapr : get_filename_feedstock_mapping [("example.txt", rex)] =
      ([] : List (String × List String)) := rfl
  have hd1 : apply_update doc "cirun-gpu-runner" "foo-feedstock" false =
      assocSet doc "cirun-gpu-runner"
        (acGetD doc "cirun-gpu-runner" ++ [{ feedstock := "foo-feedstock" }]) := by
    show (match update_access_yaml doc "cirun-gpu-runner" "foo-feedstock" "add" with
      | Except.ok d => d
      | Except.error _ => doc) = _
    rw [update_add_spec, if_neg (by simp [hfoo])]
  have hget1 : acGetD (assocSet doc "cirun-gpu-runner"
      (acGetD doc "cirun-gpu-runner" ++ [{ feedstock := "foo-feedstock" }]))
      "cirun-gpu-runner" =
      acGetD doc "cirun-gpu-runner" ++ [{ feedstock := "foo-feedstock" }] := by
    simp [acGetD, assocFind_assocSet_self]
  have hany2 : (acGetD doc "cirun-gpu-runner" ++
      [({ feedstock := "foo-feedstock" } : AccessEntry)]).any
      (fun e => e.feedstock == "bar-feedstock") = false := by
    rw [List.any_append, hbar]
    rfl
  have hd2 : apply_update (assocSet doc "cirun-gpu-runner"
      (acGetD doc "cirun-gpu-runner" ++ [{ feedstock := "foo-feedstock" }]))
      "cirun-gpu-runner" "bar-feedstock" false =
      assocSet doc "cirun-gpu-runner"
        (acGetD doc "cirun-gpu-runner" ++
          [{ feedstock := "foo-feedstock" }, { feedstock := "bar-feedstock" }]) := by
    show (match update_access_yaml (assocSet doc "cirun-gpu-runner"
        (acGetD doc "cirun-gpu-runner" ++ [({ feedstock := "foo-feedstock" } : AccessEntry)]))
        "cirun-gpu-runner" "bar-feedstock" "add" with
      | Except.ok d => d
      | Except.error _ => assocSet doc "cirun-gpu-runner"
          (acGetD doc "cirun-gpu-runner" ++ [({ feedstock := "foo-feedstock" } : AccessEntry)])) = _
    rw [update_add_spec, hget1, if_neg (by simp [hany2]), assocSet_assocSet]
    rw [List.append_assoc]
    rfl
  have hcallfoo : process_request_for_feedstock (cloneExit "foo-feedstock") regExit
      "foo-feedstock" "cirun-gpu-runner" false none =
      ([Cmd.gitClone "foo-feedstock",
        Cmd.registerCi { feedstock := "foo-feedstock", resource := "cirun-gpu-runner",
                         policy_args := none, remove := false }], Except.ok ()) := by
    simp [process_request_for_feedstock, hreg]
  have hcallbar : process_request_for_feedstock (cloneExit "bar-feedstock") regExit
      "bar-feedstock" "cirun-gpu-runner" false none =
      ([Cmd.gitClone "bar-feedstock",
        Cmd.registerCi { feedstock := "bar-feedstock", resource := "cirun-gpu-runner",
                         policy_args := none, remove := false }], Except.ok ()) := by
    simp [process_request_for_feedstock, hreg]
  have hpf : process_feedstocks cloneExit regExit "cirun-gpu-runner" none false
      ["foo", "bar"] doc =
      ([Cmd.gitClone "foo-feedstock",
        Cmd.registerCi { feedstock := "foo-feedstock", resource := "cirun-gpu-runner",
                         policy_args := none, remove := false },
        Cmd.gitClone "bar-feedstock",
        Cmd.registerCi { feedstock := "bar-feedstock", resource := "cirun-gpu-runner",
                         policy_args := none, remove := false }],
       assocSet doc "cirun-gpu-runner"
         (acGetD doc "cirun-gpu-runner" ++
           [{ feedstock := "foo-feedstock" }, { feedstock := "bar-feedstock" }]),
       Except.ok ()) := by
    have hsf : ("foo" ++ "-feedstock" : String) = "foo-feedstock" := rfl
    have hsb : ("bar" ++ "-feedstock" : String) = "bar-feedstock" := rfl
    simp only [process_feedstocks, hsf, hsb, hcallfoo, hcallbar, hd1, hd2,
      List.cons_append, List.nil_append, List.append_nil]
  have hcfg : CIRUN_FILENAME_RESOURCE_MAPPING "cirun-gpu-runner" =
      some { resource := "cirun-gpu-runner", policy_args := none } := rfl
  have hpm : process_mapping cloneExit regExit false
      [("cirun-gpu-runner", ["foo", "bar"])] doc =
      ([Cmd.gitClone "foo-feedstock",
        Cmd.registerCi { feedstock := "foo-feedstock", resource := "cirun-gpu-runner",
                         policy_args := none, remove := false },
        Cmd.gitClone "bar-feedstock",
        Cmd.registerCi { feedstock := "bar-feedstock", resource := "cirun-gpu-runner",
                         policy_args := none, remove := false }],
       assocSet doc "cirun-gpu-runner"
         (acGetD doc "cirun-gpu-runner" ++
           [{ feedstock := "foo-feedstock" }, { feedstock := "bar-feedstock" }]),
       Except.ok ()) := by
    simp only [process_mapping, hcfg, hpf, List.append_nil]
  have hpa : process_all cloneExit regExit
      { grantFiles := [("example.txt", gex), ("cirun-gpu-runner.txt", "foo\nbar")],
        revokeFiles := [("example.txt", rex)], manifest := doc } =
      ([Cmd.gitClone "foo-feedstock",
        Cmd.registerCi { feedstock := "foo-feedstock", resource := "cirun-gpu-runner",
                         policy_args := none, remove := false },
        Cmd.gitClone "bar-feedstock",
        Cmd.registerCi { feedstock := "bar-feedstock", resource := "cirun-gpu-runner",
                         policy_args := none, remove := false }],
       assocSet doc "cirun-gpu-runner"
         (acGetD doc "cirun-gpu-runner" ++
           [{ feedstock := "foo-feedstock" }, { feedstock := "bar-feedstock" }]),
       Except.ok ()) := by
    unfold process_all process_access_control_requests_for
    dsimp only
    rw [hmapg, hmapr, hpm]
    rfl
  have hg : check_for_path status
      [("example.txt", gex), ("cirun-gpu-runner.txt", "foo\nbar")] = Except.ok () := by
    unfold check_for_path
    rw [hmapg]
    simp [check_mapping, check_feedstocks, check_if_repo_exists, hsfoo, hsbar, hcfg]
  have hr : check_for_path status [("example.txt", rex)] = Except.ok () := by
    unfold check_for_path
    rw [hmapr]
    rfl
  have hcheck : check status
      { grantFiles := [("example.txt", gex), ("cirun-gpu-runner.txt", "foo\nbar")],
        revokeFiles := [("example.txt", rex)], manifest := doc } = Except.ok () := by
    unfold check
    dsimp only
    rw [hg, hr]
  unfold main
  rw [hcheck]
  simp only [hpa]
  rfl

theorem full_run_grant_two_witness :
    main (fun _ => 200) (fun _ => 0) (fun _ => 0)
      { grantFiles := [("example.txt", ""), ("cirun-gpu-runner.txt", "foo\nbar")],
        revokeFiles := [("example.txt", "")], manifest := [] } =
    ([Cmd.gitClone "foo-feedstock",
      Cmd.registerCi { feedstock := "foo-feedstock", resource := "cirun-gpu-runner",
                       policy_args := none, remove := false },
      Cmd.gitClone "bar-feedstock",
      Cmd.registerCi { feedstock := "bar-feedstock", resource := "cirun-gpu-runner",
                       policy_args := none, remove := false }],
     { grantFiles := [("example.txt", "")], revokeFiles := [("example.txt", "")],
       manifest := assocSet [] "cirun-gpu-runner"
         (acGetD [] "cirun-gpu-runner" ++
           [{ feedstock := "foo-feedstock" }, { feedstock := "bar-feedstock" }]) },
     Except.ok ()) :=
  full_run_grant_two [] (fun _ => 200) (fun _ => 0) (fun _ => 0) "" ""
    rfl rfl rfl rfl (fun _ => rfl)

end AccessControlScript
